import Mathlib

/-
Verification of the sglang rust router core (src/rust/src/router.rs) against its
natural-language specification.  Pure fragments of the router are shallowly
embedded as executable Lean definitions; stateful paths are modelled by
explicit state passing (the running-queue map and the fairness credit matrix
become functions, the streaming response becomes a list of chunks, and Rust
panics become `none` of an `Option` result).
-/

set_option maxRecDepth 4000
set_option linter.unusedVariables false

namespace SGLRouter

/- ===================== JSON model and request-text extraction ===================== -/

/-- Shallow model of a parsed `serde_json::Value`.  Numbers are modelled as
integers (no claim depends on float payloads). -/
inductive Json where
  | null : Json
  | bool (b : Bool) : Json
  | num (n : Int) : Json
  | str (s : String) : Json
  | arr (elems : List Json) : Json
  | obj (fields : List (String × Json)) : Json
deriving Repr

/-- Model of `serde_json::Value::get(key)`: field lookup on an object, `none`
on every other variant. -/
def Json.getField (j : Json) (key : String) : Option Json :=
  match j with
  | .obj fields => fields.lookup key
  | _ => none

/-- Model of `Value::as_str()`. -/
def Json.asStr : Json → Option String
  | .str s => some s
  | _ => none

mutual
/-- Model of `serde_json::to_string` on a `Value` (string escaping elided:
no claim depends on it). -/
def Json.serialize : Json → String
  | .null => "null"
  | .bool b => if b then "true" else "false"
  | .num n => toString n
  | .str s => "\x22" ++ s ++ "\x22"
  | .arr elems => "[" ++ serializeJsonList elems ++ "]"
  | .obj fields => "\x7b" ++ serializeJsonFields fields ++ "\x7d"

/-- Comma-joined serialization of a JSON array body. -/
def serializeJsonList : List Json → String
  | [] => ""
  | [e] => Json.serialize e
  | e :: rest => Json.serialize e ++ "," ++ serializeJsonList rest

/-- Comma-joined serialization of a JSON object body. -/
def serializeJsonFields : List (String × Json) → String
  | [] => ""
  | [(k, v)] => "\x22" ++ k ++ "\x22:" ++ Json.serialize v
  | (k, v) :: rest => "\x22" ++ k ++ "\x22:" ++ Json.serialize v ++ "," ++ serializeJsonFields rest
end

/-- Translation of `get_text_from_request` (router.rs lines 107-127).  The
body is represented by the outcome of `serde_json::from_slice`: `parsed = none`
means the body is not valid JSON.  The source calls `.unwrap()` on that parse
result, which panics on invalid JSON; the panic is modelled as result `none`.
On parsed bodies the source never fails, so the result is `some` of the
extracted text. -/
def get_text_from_request (parsed : Option Json) (route : String) : Option String :=
  match parsed with
  | none => none
  | some json =>
    if route = "generate" then
      some ((((json.getField "text").bind Json.asStr)).getD "")
    else if route = "v1/chat/completions" then
      match json.getField "messages" with
      | some messages => some messages.serialize
      | none => some ""
    else if route = "v1/completions" then
      some ((((json.getField "prompt").bind Json.asStr)).getD "")
    else
      some ""

/-- Translation of `get_uid_from_body` (router.rs lines 129-135).  This
function handles the parse failure with `.ok()`, falling back to the
`"default_uid"` sentinel; it never panics. -/
def get_uid_from_body (parsed : Option Json) : String :=
  (((parsed.bind (fun json => json.getField "user")).bind Json.asStr)).getD "default_uid"

/- ===================== Streaming response and running-queue bookkeeping ===================== -/

/-- The 12 bytes of the literal `data: [DONE]` sniffed for in each forwarded
chunk (router.rs line 461). -/
def doneSentinel : List Nat := [100, 97, 116, 97, 58, 32, 91, 68, 79, 78, 69, 93]

/-- Translation of `bytes.as_ref().windows(12).any(|window| window == b"data: [DONE]")`
(router.rs lines 458-462): does any 12-byte window of the chunk equal the
sentinel?  `List.take 12` of a suffix shorter than 12 bytes can never equal
the 12-byte sentinel, exactly as `windows(12)` yields nothing there. -/
def containsDone : List Nat → Bool
  | [] => false
  | b :: rest => ((b :: rest).take 12 == doneSentinel) || containsDone rest

/-- Translation of the streaming tail of `dispatch` (router.rs lines 451-470).
The upstream byte stream is a list of read results (`Except Unit chunk`, the
error payload erased).  The `inspect` closure runs `bytes.as_ref().unwrap()`
on every item, so an `Except.error` item panics (modelled as `none`); an ok
chunk containing the DONE sentinel decrements the counter with
`saturating_sub(1)` (truncated `Nat` subtraction). -/
def streamConsume : List (Except Unit (List Nat)) → Nat → Option Nat
  | [], count => some count
  | .error _ :: _, _ => none
  | .ok chunk :: rest, count =>
      streamConsume rest (if containsDone chunk then count - 1 else count)

/-- Increment of the running queue at dispatch (router.rs lines 388-390):
`running[w] += 1`, other workers untouched. -/
def bumpRunning (running : String → Nat) (w : String) : String → Nat :=
  fun u => if u = w then running u + 1 else running u

/-- Decrement of the running queue on completion (router.rs lines 436-442):
`running[w] = running[w].saturating_sub(1)`. -/
def decRunning (running : String → Nat) (w : String) : String → Nat :=
  fun u => if u = w then running u - 1 else running u

/-- Outcome of the upstream HTTP call made by `dispatch`. -/
inductive UpstreamOutcome where
  | sendFailure : UpstreamOutcome
  | buffered (bodyReadOk : Bool) : UpstreamOutcome
  | streaming (items : List (Except Unit (List Nat))) : UpstreamOutcome

/-- Running-queue bookkeeping of one cache-aware dispatch that selected worker
`w` (router.rs lines 388-478), as a function of the upstream outcome:
* the counter is incremented at dispatch (lines 388-390);
* on a send failure the source returns `InternalServerError` immediately
  (line 422) with no decrement;
* on a buffered response the counter is decremented whether the body read
  succeeded or failed (lines 436-442);
* on a streaming response the counter evolves per forwarded chunk via
  `streamConsume`; `none` records the panic of the `inspect` closure on a
  stream read error. -/
def runningAfterDispatch (running : String → Nat) (w : String)
    (out : UpstreamOutcome) : Option (String → Nat) :=
  let r1 := bumpRunning running w
  match out with
  | .sendFailure => some r1
  | .buffered _ => some (decRunning r1 w)
  | .streaming items =>
      (streamConsume items (r1 w)).map (fun c => fun u => if u = w then c else r1 u)

end SGLRouter

namespace SGLRouter

/- ===================== Worker selection: round robin, random, shortest queue ===================== -/

/-- Atomic index state of the round-robin router after `i` dispatches
(router.rs lines 237-243): starts at 0, each dispatch stores
`(x + 1) % worker_urls.len()` and returns the previous value. -/
def rrState (n : Nat) : Nat → Nat
  | 0 => 0
  | i + 1 => (rrState n i + 1) % n

/-- Worker selected by the i-th round-robin dispatch (router.rs line 245):
`worker_urls[idx]` where `idx` is the pre-update index value. -/
def rrSelect (worker_urls : List String) (i : Nat) : Option String :=
  worker_urls[rrState worker_urls.length i]?

/-- One round-robin dispatch step from raw index `x` (router.rs lines 233-246).
In Rust `(x + 1) % worker_urls.len()` panics when the list is empty
(remainder by zero), modelled as `none`; otherwise the selected url and the
updated index are returned. -/
def rrDispatch (worker_urls : List String) (x : Nat) : Option (String × Nat) :=
  if worker_urls.length = 0 then none
  else (worker_urls[x]?).map (fun u => (u, (x + 1) % worker_urls.length))

/-- Random dispatch (router.rs lines 248-250): `rand::random::<usize>() % len`,
which panics (none) when the worker list is empty. -/
def randSelect (worker_urls : List String) (r : Nat) : Option String :=
  if worker_urls.length = 0 then none
  else worker_urls[r % worker_urls.length]?

/-- Translation of `Router::get_first` (router.rs lines 207-219): all three
variants return the first worker url, or `none` for an empty list. -/
def get_first (worker_urls : List String) : Option String :=
  if worker_urls.isEmpty then none else worker_urls.head?

/-- Constructor initialization of the running queue (router.rs lines 153-156):
one zero entry per worker url; an empty worker list yields an empty map and
the constructor performs no other per-worker work that can fail. -/
def initRunningQueue (worker_urls : List String) : List (String × Nat) :=
  worker_urls.map (fun u => (u, 0))

/-- Model of `running_queue.iter().min_by_key(|(_url, &count)| count)` over a
snapshot of the map (router.rs lines 380-383).  Rust's `min_by_key` keeps the
later element on ties; iteration order of the `HashMap` is arbitrary, so the
model receives the snapshot as a list. -/
def minByCount : List (String × Nat) → Option (String × Nat)
  | [] => none
  | x :: rest =>
      match minByCount rest with
      | none => some x
      | some y => some (if y.2 ≤ x.2 then y else x)

/-- Shortest-queue branch of cache-aware dispatch (router.rs lines 378-385):
minimum of the running map, with fallback `worker_urls[0]` which panics
(`none`) when the worker list is empty. -/
def shortestQueueSelect (running : List (String × Nat)) (worker_urls : List String) :
    Option String :=
  match minByCount running with
  | some p => some p.1
  | none => worker_urls.head?

/- ===================== Cache-aware branch (match-rate comparison) ===================== -/

/-- Values an `f32` expression can take in the match-rate computation. -/
inductive F32 where
  | nan : F32
  | posInf : F32
  | val (q : ℚ) : F32

/-- The `f32` division `matched_text.chars().count() as f32 / text.chars().count() as f32`
(router.rs lines 370-371) on two natural counts: division by zero yields NaN
for `0/0` and positive infinity otherwise; the nonzero-denominator case is
modelled by exact rational division (f32 rounding is not modelled; the
theorems below only use the zero-denominator case). -/
def natDivF32 (a b : Nat) : F32 :=
  if b = 0 then (if a = 0 then .nan else .posInf) else .val ((a : ℚ) / (b : ℚ))

/-- IEEE `>` against a finite threshold: NaN compares false, +inf compares
true. -/
def F32.gtThreshold : F32 → ℚ → Bool
  | .nan, _ => false
  | .posInf, _ => true
  | .val q, c => decide (c < q)

/-- Cache-aware (non-fairness, `sampled_p < cache_routing_prob`) branch of
dispatch (router.rs lines 367-377): route to the matched worker when the
match rate exceeds `cache_threshold`, else to `tree.get_smallest_tenant()`.
`matchedLen` and `textLen` are the character counts of the matched text and
the request text; the two candidate workers are passed in. -/
def cacheAwareSelect (matchedLen textLen : Nat) (threshold : ℚ)
    (matchedWorker smallestTenant : String) : String :=
  if (natDivF32 matchedLen textLen).gtThreshold threshold then matchedWorker
  else smallestTenant

/- ===================== Fairness accountant (i32 credit arithmetic) ===================== -/

/-- Reduction of an integer into the `i32` range `[-2147483648, 2147483648)`:
the two's-complement wrap that Rust's release-mode integer arithmetic
performs on overflow (debug builds panic instead; the wrap is what ships). -/
def i32Wrap (x : Int) : Int := (x + 2147483648) % 4294967296 - 2147483648

/-- The `usize`-to-`i32` cast `n as i32` (router.rs lines 280, 308, 334): the
low 32 bits of `n` reinterpreted as a signed value.  It always wraps — e.g.
`2^32 as i32 = 0` and `2^31 as i32 = -2^31`. -/
def usizeToI32 (n : Nat) : Int := i32Wrap (n : Int)

/-- Rust's `i32::saturating_sub`: exact difference clamped to the `i32`
range (router.rs line 311). -/
def i32SatSub (a b : Int) : Int := max (-2147483648) (min (a - b) 2147483647)

/-- Lazy initialization of a new user's credit row (router.rs lines 277-288):
every worker is credited `*fairness_fill_size as i32` — the wrapping cast of
the `usize` fill size.  The row is modelled as a total function; the source
only ever stores and reads entries for urls of `worker_urls`. -/
def initRow (fillSize : Nat) : String → Int := fun _ => usizeToI32 fillSize

/-- Scan of the ranked workers (router.rs lines 305-322): return the first
worker whose credit satisfies the `i32` test `count - deduction as i32 > 0`
(the subtraction wraps on overflow in release builds), storing
`count.saturating_sub(deduction as i32)` for it.  The parameter `d` is the
already-cast deduction `usizeToI32 (text.chars().count())`.  The source's
`if let Some` lookups always succeed because the row was initialized with
every worker url. -/
def fairnessScan (row : String → Int) (d : Int) : List String → Option (String × (String → Int))
  | [] => none
  | w :: rest =>
      if 0 < i32Wrap (row w - d) then
        some (w, fun u => if u = w then i32SatSub (row w) d else row u)
      else
        fairnessScan row d rest

/-- Refill of a user's credit row (router.rs lines 325-343): every worker url
gains `count + *fairness_fill_size as i32`, an `i32` addition that wraps on
overflow; `fill` is the already-cast increment `usizeToI32 fairness_fill_size`. -/
def refillRow (workers : List String) (fill : Int) (row : String → Int) : String → Int :=
  workers.foldl (fun r u => fun v => if v = u then i32Wrap (r u + fill) else r v) row

/-- The unbounded refill-and-retry `loop` of the fairness branch (router.rs
lines 303-347), with an explicit fuel counting loop iterations: each
iteration scans the ranked workers and, when nothing is selected, refills the
row and retries.  `none` means the loop is still running after `fuel`
iterations; the real loop has no bound, so termination is the statement that
some fuel returns `some`. -/
def fairnessLoop : Nat → List String → List String → (String → Int) → Int → Int →
    Option (String × (String → Int))
  | 0, _, _, _, _, _ => none
  | fuel + 1, workers, sorted, row, d, fill =>
      match fairnessScan row d sorted with
      | some result => some result
      | none => fairnessLoop fuel workers sorted (refillRow workers fill row) d fill

/-- Strict positivity of every credit stored for the given workers. -/
def rowPos (workers : List String) (row : String → Int) : Prop :=
  ∀ w ∈ workers, 0 < row w

/-- The refill-and-retry loop never returns a selection, whatever the
iteration count: the fuel-indexed model answers `none` for every fuel. -/
def loopDiverges (workers sorted : List String) (row : String → Int) (d fill : Int) : Prop :=
  ∀ fuel, fairnessLoop fuel workers sorted row d fill = none

/- ===================== Helper lemmas: i32 arithmetic ===================== -/

theorem i32Wrap_eq_self {x : Int} (h1 : -2147483648 ≤ x) (h2 : x < 2147483648) :
    i32Wrap x = x := by
  unfold i32Wrap
  rw [Int.emod_eq_of_lt (by omega) (by omega)]
  omega

theorem i32SatSub_eq {a b : Int} (h1 : -2147483648 ≤ a - b) (h2 : a - b ≤ 2147483647) :
    i32SatSub a b = a - b := by
  unfold i32SatSub
  rw [min_eq_left h2, max_eq_right h1]

/- ===================== Helper lemmas: fairness ===================== -/

theorem fairnessScan_eq_find (row : String → Int) (d : Int) (sorted : List String)
    (hrange : ∀ u ∈ sorted, 0 < row u ∧ row u < 2147483648)
    (hd0 : 0 ≤ d) (hd1 : d < 2147483648) :
    fairnessScan row d sorted
      = (sorted.find? (fun u => decide (0 < row u - d))).map
          (fun u => (u, fun v => if v = u then row u - d else row v)) := by
  induction sorted with
  | nil => rfl
  | cons w rest ih =>
    obtain ⟨hw0, hw1⟩ := hrange w (List.mem_cons_self w rest)
    have hwrap : i32Wrap (row w - d) = row w - d := i32Wrap_eq_self (by omega) (by omega)
    have hsat : i32SatSub (row w) d = row w - d := i32SatSub_eq (by omega) (by omega)
    have hrest : ∀ u ∈ rest, 0 < row u ∧ row u < 2147483648 := fun u hu =>
      hrange u (List.mem_cons_of_mem w hu)
    by_cases h : 0 < row w - d
    · simp [fairnessScan, List.find?, hwrap, hsat, h]
    · simp [fairnessScan, List.find?, hwrap, h, ih hrest]

theorem fairnessScan_some {row : String → Int} {d : Int} {sorted : List String}
    {w : String} {row' : String → Int}
    (hrange : ∀ u ∈ sorted, 0 < row u ∧ row u < 2147483648)
    (hd0 : 0 ≤ d) (hd1 : d < 2147483648)
    (h : fairnessScan row d sorted = some (w, row')) :
    sorted.find? (fun u => decide (0 < row u - d)) = some w
    ∧ 0 < row w - d
    ∧ row' = fun v => if v = w then row w - d else row v := by
  rw [fairnessScan_eq_find row d sorted hrange hd0 hd1] at h
  cases hf : sorted.find? (fun u => decide (0 < row u - d)) with
  | none => rw [hf] at h; simp at h
  | some u =>
    rw [hf] at h
    simp only [Option.map_some', Option.some.injEq, Prod.mk.injEq] at h
    obtain ⟨hw, hrow⟩ := h
    subst hw
    have hguard := List.find?_some hf
    simp only [decide_eq_true_eq] at hguard
    exact ⟨rfl, hguard, hrow.symm⟩

theorem refillRow_not_mem (workers : List String) (fill : Int) (row : String → Int)
    (u : String) (hu : u ∉ workers) : refillRow workers fill row u = row u := by
  induction workers generalizing row with
  | nil => rfl
  | cons w rest ih =>
    have h1 : u ≠ w := fun h => hu (h ▸ List.mem_cons_self w rest)
    have h2 : u ∉ rest := fun h => hu (List.mem_cons_of_mem w h)
    show refillRow rest fill (fun v => if v = w then i32Wrap (row w + fill) else row v) u = row u
    rw [ih _ h2]
    simp [h1]

theorem refillRow_mem (workers : List String) (fill : Int) (row : String → Int)
    (u : String) (hnd : workers.Nodup) (hu : u ∈ workers) :
    refillRow workers fill row u = i32Wrap (row u + fill) := by
  induction workers generalizing row with
  | nil => cases hu
  | cons w rest ih =>
    obtain ⟨hwrest, hndrest⟩ := List.nodup_cons.mp hnd
    show refillRow rest fill (fun v => if v = w then i32Wrap (row w + fill) else row v) u
        = i32Wrap (row u + fill)
    rcases List.mem_cons.mp hu with h | h
    · rw [refillRow_not_mem rest fill _ u (h ▸ hwrest)]
      simp [h]
    · have hne : u ≠ w := fun he => hwrest (he ▸ h)
      rw [ih (fun v => if v = w then i32Wrap (row w + fill) else row v) hndrest h]
      simp [hne]

theorem refillRow_eq_update (workers : List String) (fill : Int) (row : String → Int)
    (hnd : workers.Nodup)
    (hno : ∀ u ∈ workers, -2147483648 ≤ row u + fill ∧ row u + fill < 2147483648) :
    refillRow workers fill row = fun u => if u ∈ workers then row u + fill else row u := by
  funext u
  by_cases hu : u ∈ workers
  · rw [refillRow_mem workers fill row u hnd hu,
      i32Wrap_eq_self (hno u hu).1 (hno u hu).2]
    simp [hu]
  · rw [refillRow_not_mem workers fill row u hu]
    simp [hu]

theorem fairnessLoop_progress (workers : List String) (w0 : String) (ws : List String)
    (d fill : Int) (hmem : w0 ∈ workers) (hnd : workers.Nodup)
    (hd0 : 0 ≤ d) (hd1 : d < 2147483648)
    (hf : 1 ≤ fill) (hdf : d + fill < 2147483648) :
    ∀ k : Nat, ∀ row : String → Int,
      -2147483648 ≤ row w0 → row w0 < 2147483648 →
      d < row w0 + (k : Int) * fill →
      (fairnessLoop (k + 1) workers (w0 :: ws) row d fill).isSome = true := by
  intro k
  induction k with
  | zero =>
    intro row hlo hhi h
    have h0 : d < row w0 := by push_cast at h; linarith
    have hguard : 0 < i32Wrap (row w0 - d) := by
      rw [i32Wrap_eq_self (by omega) (by omega)]
      omega
    simp [fairnessLoop, fairnessScan, hguard]
  | succ k ih =>
    intro row hlo hhi h
    cases hs : fairnessScan row d (w0 :: ws) with
    | some r => simp [fairnessLoop, hs]
    | none =>
      have hguardF : ¬ (0 < i32Wrap (row w0 - d)) := by
        intro hg
        have hsome : fairnessScan row d (w0 :: ws)
            = some (w0, fun u => if u = w0 then i32SatSub (row w0) d else row u) := by
          simp [fairnessScan, hg]
        rw [hsome] at hs
        cases hs
      have hle : row w0 ≤ d := by
        by_contra hgt
        push_neg at hgt
        exact hguardF (by rw [i32Wrap_eq_self (by omega) (by omega)]; omega)
      have hstep : fairnessLoop (k + 1 + 1) workers (w0 :: ws) row d fill
          = fairnessLoop (k + 1) workers (w0 :: ws) (refillRow workers fill row) d fill := by
        simp [fairnessLoop, hs]
      rw [hstep]
      have hmemv : refillRow workers fill row w0 = row w0 + fill := by
        rw [refillRow_mem workers fill row w0 hnd hmem,
          i32Wrap_eq_self (by omega) (by omega)]
      apply ih
      · rw [hmemv]; omega
      · rw [hmemv]; omega
      · rw [hmemv]
        push_cast at h ⊢
        linarith

theorem loopDiverges_of_fixpoint (workers sorted : List String) (row : String → Int)
    (d fill : Int)
    (hscan : fairnessScan row d sorted = none)
    (hfix : refillRow workers fill row = row) :
    loopDiverges workers sorted row d fill := by
  intro fuel
  induction fuel with
  | zero => rfl
  | succ fuel ih => simp [fairnessLoop, hscan, hfix, ih]

/- ===================== Helper lemmas: round robin ===================== -/

theorem rrState_eq_mod (n : Nat) : ∀ i, rrState n i = i % n := by
  intro i
  induction i with
  | zero => exact (Nat.zero_mod n).symm
  | succ i ih =>
    show (rrState n i + 1) % n = (i + 1) % n
    rw [ih, Nat.mod_add_mod]

theorem countP_mod_range (n j : Nat) (hn : 0 < n) (hj : j < n) :
    ∀ K, (List.range K).countP (fun i => i % n == j)
      = K / n + (if j < K % n then 1 else 0) := by
  intro K
  induction K with
  | zero => simp
  | succ K ih =>
    rw [List.range_succ, List.countP_append, ih]
    have hdm := Nat.div_add_mod K n
    have hr : K % n < n := Nat.mod_lt _ hn
    rcases Nat.lt_or_ge (K % n + 1) n with hlt | hge
    · have hK1 : K + 1 = n * (K / n) + (K % n + 1) := by omega
      have hdiv : (K + 1) / n = K / n := by
        rw [hK1, Nat.mul_add_div hn, Nat.div_eq_of_lt hlt, Nat.add_zero]
      have hmod : (K + 1) % n = K % n + 1 := by
        rw [hK1, Nat.mul_add_mod, Nat.mod_eq_of_lt hlt]
      rw [hdiv, hmod]
      simp only [List.countP_cons, List.countP_nil, Nat.zero_add, beq_iff_eq]
      split_ifs <;> omega
    · have hmul : n * (K / n + 1) = n * (K / n) + n := Nat.mul_succ n (K / n)
      have hK1 : K + 1 = n * (K / n + 1) := by omega
      have hdiv : (K + 1) / n = K / n + 1 := by
        rw [hK1, Nat.mul_div_cancel_left _ hn]
      have hmod : (K + 1) % n = 0 := by
        rw [hK1]
        exact Nat.mul_mod_right n _
      rw [hdiv, hmod]
      simp only [List.countP_cons, List.countP_nil, Nat.zero_add, beq_iff_eq]
      split_ifs <;> omega

theorem ceil_div_eq (n K : Nat) (hn : 0 < n) (hr : 0 < K % n) :
    K / n + 1 = (K + n - 1) / n := by
  have hdm := Nat.div_add_mod K n
  have hrlt : K % n < n := Nat.mod_lt _ hn
  have hsub : K % n - 1 < n := by omega
  have hmul : n * (K / n + 1) = n * (K / n) + n := Nat.mul_succ n (K / n)
  have h1 : K + n - 1 = n * (K / n + 1) + (K % n - 1) := by
    rw [hmul]; omega
  rw [h1, Nat.mul_add_div hn, Nat.div_eq_of_lt hsub, Nat.add_zero]

/- ===================== Claim theorems ===================== -/

/-- C1: the claim says a cache-aware dispatch whose upstream send fails returns
an internal-server-error response AND decrements `running[w]` so the counter
balances.  The source (router.rs line 422) returns the error response but
performs no decrement: after the failed dispatch `running[w]` equals its
prior value plus one, not its prior value.  Evaluated at the failing input
(`running` all zero, selected worker `"workerA"`, upstream outcome
`sendFailure`): the resulting counter for the selected worker is 1, while the
claim requires it to return to 0. -/
theorem send_failure_leaks_running_counter :
    runningAfterDispatch (fun _ => 0) "workerA" .sendFailure
      = some (bumpRunning (fun _ => 0) "workerA")
    ∧ bumpRunning (fun _ => 0) "workerA" "workerA" = 1
    ∧ (1 : Nat) ≠ 0 := by
  refine ⟨rfl, ?_, by decide⟩
  simp [bumpRunning]

/-- C2 counterexample: the claim says `running[w]` is decremented at most once
per streaming request, with chunks after the first `data: [DONE]` occurrence
causing no additional decrement.  The source decrements on EVERY chunk
containing the sentinel (router.rs lines 456-469; there is no
already-decremented flag): a stream of two sentinel-bearing chunks starting
from counter 2 ends at 0, whereas the claim predicts 2 - 1 = 1. -/
theorem done_sentinel_double_decrement_cex :
    streamConsume [Except.ok doneSentinel, Except.ok doneSentinel] 2 = some 0
    ∧ (0 : Nat) ≠ 2 - 1 := by
  exact ⟨by decide, by decide⟩

/-- C2 amended: on a streaming dispatch the source decrements `running[w]`
(saturating at zero) once for EVERY forwarded chunk that contains the 12-byte
sequence `data: [DONE]` — not at most once per request: after the whole
stream is forwarded the counter equals its starting value truncated-minus the
number of sentinel-bearing chunks. -/
theorem stream_decrement_per_sentinel_chunk (chunks : List (List Nat)) (count : Nat) :
    streamConsume (chunks.map Except.ok) count
      = some (count - chunks.countP containsDone) := by
  induction chunks generalizing count with
  | nil => simp [streamConsume]
  | cons chunk rest ih =>
    show streamConsume (rest.map Except.ok) (if containsDone chunk then count - 1 else count)
        = some (count - (chunk :: rest).countP containsDone)
    rw [ih]
    rw [List.countP_cons]
    by_cases h : containsDone chunk
    · simp only [h, if_pos, Option.some.injEq]
      omega
    · simp [h]

/-- C3: the claim says a request body that is not valid JSON is treated as
empty text with the default user id and routing proceeds without panic.  The
source's `get_text_from_request` (router.rs line 109) calls `.unwrap()` on the
`serde_json` parse result and panics on invalid JSON before any routing
happens (modelled: parse outcome `none` yields result `none` = panic), while
`get_uid_from_body` does fall back to `"default_uid"`; a parsed body lacking
the `text` field does yield empty text. -/
theorem invalid_json_body_panics :
    get_text_from_request none "generate" = none
    ∧ get_uid_from_body none = "default_uid"
    ∧ get_text_from_request (some (Json.obj [])) "generate" = some "" := by
  exact ⟨rfl, rfl, rfl⟩

/-- C4: the claim says a failed upstream stream read ends the downstream
stream with an internal-server-error marker (no panic) and decrements
`running[w]`.  In the source the error item produced by `map_err` flows into
the `inspect` closure, whose `bytes.as_ref().unwrap()` (router.rs line 457)
panics on it, and the `data: [DONE]`-triggered decrement never runs: with
`running[w] = 1` and a stream whose first read fails, the bookkeeping ends in
the panic state (`none`) and no final counter map exists, rather than a map
with the counter decremented to 1 (post-increment value 2 minus 1). -/
theorem stream_read_failure_panics_no_decrement :
    runningAfterDispatch (fun _ => 1) "workerA" (.streaming [Except.error ()]) = none
    ∧ streamConsume [Except.error ()] 2 = none := by
  exact ⟨rfl, rfl⟩

/-- C8: the claim says `get_first()` on an empty worker list is none (true),
construction of a cache-aware router with zero workers succeeds (true: the
constructor's per-worker loops simply do nothing), and every subsequent
dispatch returns an internal-server-error instead of crashing.  The last part
is false in the source: a round-robin dispatch computes `(x + 1) % 0` and a
random dispatch computes `random % 0`, both of which panic; the cache-aware
shortest-queue branch falls back to `worker_urls[0]` on the empty map, which
panics; and the fairness refill-and-retry loop scans and refills an empty
worker list forever (still `none` after any number of iterations, here 5) and
never produces a response. -/
theorem empty_worker_list_dispatch_crashes :
    get_first [] = none
    ∧ initRunningQueue [] = []
    ∧ rrDispatch [] 0 = none
    ∧ randSelect [] 7 = none
    ∧ shortestQueueSelect [] [] = none
    ∧ fairnessLoop 5 [] [] (fun _ => 1) 1 1 = none := by
  exact ⟨rfl, rfl, rfl, rfl, rfl, rfl⟩

/-- C5 counterexample: the claim asserts termination for EVERY
`fairness_fill_size ≥ 1`, but the source refills with the wrapping cast
`*fairness_fill_size as i32` (router.rs lines 280, 334).  At
`fairness_fill_size = 2^32` (a legal 64-bit usize `≥ 1`), the cast is 0:
lazy initialization credits every worker 0, each refill adds 0, and with one
worker and text length `d = 1 > 0` the scan never selects and the loop never
returns, at any iteration count — the source loop does not terminate at an
input the claim covers. -/
theorem fill_cast_zero_loop_diverges_cex :
    (1 : Nat) ≤ 2 ^ 32
    ∧ usizeToI32 (2 ^ 32) = 0
    ∧ initRow (2 ^ 32) = (fun _ => (0 : Int))
    ∧ loopDiverges ["A"] ["A"] (initRow (2 ^ 32)) 1 (usizeToI32 (2 ^ 32)) := by
  have hcast : usizeToI32 (2 ^ 32) = 0 := by decide
  refine ⟨by norm_num, hcast, ?_, ?_⟩
  · funext u
    show usizeToI32 (2 ^ 32) = 0
    exact hcast
  · apply loopDiverges_of_fixpoint
    · rfl
    · funext u
      by_cases hu : u = "A"
      · subst hu
        decide
      · show (if u = "A" then i32Wrap (initRow (2 ^ 32) "A" + usizeToI32 (2 ^ 32))
            else initRow (2 ^ 32) u) = initRow (2 ^ 32) u
        rw [if_neg hu]

/-- C5 amended: the refill-and-retry loop terminates whenever the ranked
worker list is non-empty (head `w0`, a member of the nodup worker-url list
that refills operate on), the text length `d` is positive, the i32 value
`fill = fairness_fill_size as i32` actually satisfies `fill ≥ 1` (which the
wrapping cast does not guarantee from `fairness_fill_size ≥ 1` alone), the
head credit is an i32 value, and `d + fill` stays below `2^31` so no refill
overflows i32: then each refill adds exactly `fill` to the head credit, so
`(d - credit[w0]).toNat + 2` loop iterations of fuel suffice for the loop to
return a selection. -/
theorem fairness_loop_terminates (workers ws : List String) (w0 : String)
    (row : String → Int) (d fill : Int)
    (hmem : w0 ∈ workers) (hnd : workers.Nodup)
    (hd : 0 < d) (hd1 : d < 2147483648)
    (hf : 1 ≤ fill) (hdf : d + fill < 2147483648)
    (hlo : -2147483648 ≤ row w0) (hhi : row w0 < 2147483648) :
    (fairnessLoop ((d - row w0).toNat + 2) workers (w0 :: ws) row d fill).isSome = true := by
  have h1 : d - row w0 ≤ ((d - row w0).toNat : Int) := Int.self_le_toNat _
  have h2 : (0 : Int) ≤ ((d - row w0).toNat : Int) + 1 := by positivity
  have h3 : (((d - row w0).toNat : Int) + 1) * 1 ≤ (((d - row w0).toNat : Int) + 1) * fill :=
    mul_le_mul_of_nonneg_left hf h2
  have hk : d < row w0 + (((d - row w0).toNat + 1 : Nat) : Int) * fill := by
    push_cast
    nlinarith
  exact fairnessLoop_progress workers w0 ws d fill hmem hnd (le_of_lt hd) hd1 hf hdf
    ((d - row w0).toNat + 1) row hlo hhi hk

/-- Witness for the amended C5 at a concrete input: one worker `"A"`, all
credits 1, text length 5, i32 fill value 1; the loop returns a selection
within `(5 - 1).toNat + 2 = 6` iterations. -/
theorem fairness_loop_terminates_witness :
    (0 : Int) < 5 ∧ (1 : Int) ≤ 1 ∧ (5 : Int) + 1 < 2147483648
    ∧ (fairnessLoop 6 ["A"] ["A"] (fun _ => 1) 5 1).isSome = true := by
  exact ⟨by decide, by decide, by decide,
    fairness_loop_terminates ["A"] [] "A" (fun _ => 1) 5 1 (by simp) (by simp)
      (by decide) (by decide) (by decide) (by decide) (by decide) (by decide)⟩

/-- C6 counterexample: the claim says a failed scan refills every worker of
the user's row by `+fairness_fill_size`, but the source adds the wrapping
cast `*fairness_fill_size as i32` (router.rs line 334) with i32 addition.
At `fairness_fill_size = 2^32` (`≥ 1`), the cast is 0: with one ranked
worker of credit 5 and deduction `d = 7` no worker qualifies, yet the refill
leaves the credit at 5 instead of the claimed `5 + 2^32`. -/
theorem refill_wrapped_cast_cex :
    (1 : Nat) ≤ 2 ^ 32
    ∧ usizeToI32 (2 ^ 32) = 0
    ∧ fairnessScan (fun _ => (5 : Int)) 7 ["A"] = none
    ∧ refillRow ["A"] (usizeToI32 (2 ^ 32)) (fun _ => (5 : Int)) "A" = 5
    ∧ (5 : Int) ≠ 5 + 2 ^ 32 := by
  refine ⟨by norm_num, by decide, by rfl, ?_, by decide⟩
  show i32Wrap ((5 : Int) + usizeToI32 (2 ^ 32)) = 5
  decide

/-- C6 amended: with the credits, deduction and fill taken as their i32
values (`d = text char count as i32`, `fill = fairness_fill_size as i32`),
and in the no-overflow regime — every ranked credit positive and below
`2^31`, `0 ≤ d < 2^31`, and every refilled sum within i32 range — the
selected worker is the first ranked worker whose credit strictly exceeds `d`
(`List.find?` with predicate `0 < credit - d`), its credit becomes
`max 0 (credit - d)` (what the source's `saturating_sub` stores under the
guard) while every other credit is unchanged; and when no ranked worker
qualifies the scan returns nothing, every worker url of the user's row is
refilled by exactly `+fill`, and the loop retries the scan on the refilled
row.  Outside this regime the i32 wrap breaks the characterization, as the
counterexample shows. -/
theorem fairness_selection_and_refill (workers sorted : List String)
    (row rowN row' : String → Int) (d fill : Int) (w : String) (fuel : Nat)
    (hnd : workers.Nodup)
    (hrange : ∀ u ∈ sorted, 0 < row u ∧ row u < 2147483648)
    (hd0 : 0 ≤ d) (hd1 : d < 2147483648)
    (hsel : fairnessScan row d sorted = some (w, row'))
    (hnoN : ∀ u ∈ workers, -2147483648 ≤ rowN u + fill ∧ rowN u + fill < 2147483648)
    (hnone : fairnessScan rowN d sorted = none) :
    sorted.find? (fun u => decide (0 < row u - d)) = some w
    ∧ row' = (fun u => if u = w then max 0 (row u - d) else row u)
    ∧ refillRow workers fill rowN = (fun u => if u ∈ workers then rowN u + fill else rowN u)
    ∧ fairnessLoop (fuel + 1) workers sorted rowN d fill
        = fairnessLoop fuel workers sorted (refillRow workers fill rowN) d fill := by
  obtain ⟨hfind, hguard, hrow⟩ := fairnessScan_some hrange hd0 hd1 hsel
  refine ⟨hfind, ?_, refillRow_eq_update workers fill rowN hnd hnoN, ?_⟩
  · rw [hrow]
    funext v
    by_cases hv : v = w
    · subst hv
      simp [max_eq_right (le_of_lt hguard)]
    · simp [hv]
  · simp [fairnessLoop, hnone]

/-- Witness for the amended C6 at a concrete input: one ranked worker `"A"`,
credit 5, `d = 3`, i32 fill value 2; a second row with credit 1 exercises
the refill branch. -/
theorem fairness_selection_and_refill_witness :
    List.find? (fun u => decide (0 < (fun _ : String => (5 : Int)) u - 3)) ["A"] = some "A"
    ∧ (fun u : String => if u = "A" then (2 : Int) else 5)
        = (fun u : String => if u = "A" then max 0 (5 - 3) else (5 : Int))
    ∧ refillRow ["A"] 2 (fun _ => (1 : Int))
        = (fun u : String => if u ∈ ["A"] then (1 : Int) + 2 else 1)
    ∧ fairnessLoop 1 ["A"] ["A"] (fun _ => (1 : Int)) 3 2
        = fairnessLoop 0 ["A"] ["A"] (refillRow ["A"] 2 (fun _ => (1 : Int))) 3 2 := by
  exact fairness_selection_and_refill ["A"] ["A"] (fun _ => 5) (fun _ => 1)
    (fun u => if u = "A" then 2 else 5) 3 2 "A" 0 (by simp)
    (by intro u hu; constructor <;> norm_num) (by decide) (by decide) (by rfl)
    (by intro u hu; constructor <;> norm_num) (by rfl)

/-- C7: the i-th round-robin dispatch (initial index 0) selects the worker at
position `i mod N`; over the first `K` dispatches the worker at position
`j < N` is selected either `⌊K/N⌋` or `⌈K/N⌉ = (K + N - 1)/N` times; and with
workers `["A", "B"]` the first three dispatches select A, B, A. -/
theorem round_robin_selection (urls : List String) (n i K j : Nat)
    (hn : urls.length = n) (h1 : 1 ≤ n) (hj : j < n) :
    rrSelect urls i = urls[i % n]?
    ∧ ((List.range K).countP (fun t => rrState n t == j) = K / n
       ∨ (List.range K).countP (fun t => rrState n t == j) = (K + n - 1) / n)
    ∧ rrSelect ["A", "B"] 0 = some "A"
    ∧ rrSelect ["A", "B"] 1 = some "B"
    ∧ rrSelect ["A", "B"] 2 = some "A" := by
  refine ⟨?_, ?_, rfl, rfl, rfl⟩
  · unfold rrSelect
    rw [rrState_eq_mod, hn]
  · have hfun : (fun t => rrState n t == j) = (fun t => t % n == j) := by
      funext t
      rw [rrState_eq_mod]
    rw [hfun, countP_mod_range n j h1 hj K]
    by_cases hlt : j < K % n
    · right
      rw [if_pos hlt]
      exact ceil_div_eq n K h1 (by omega)
    · left
      rw [if_neg hlt]
      exact Nat.add_zero _

/-- Witness for C7 at a concrete input: two workers, dispatch 5, window of
three dispatches, worker position 0. -/
theorem round_robin_selection_witness :
    rrSelect ["A", "B"] 5 = ["A", "B"][5 % 2]?
    ∧ ((List.range 3).countP (fun t => rrState 2 t == 0) = 3 / 2
       ∨ (List.range 3).countP (fun t => rrState 2 t == 0) = (3 + 2 - 1) / 2)
    ∧ rrSelect ["A", "B"] 0 = some "A"
    ∧ rrSelect ["A", "B"] 1 = some "B"
    ∧ rrSelect ["A", "B"] 2 = some "A" := by
  exact round_robin_selection ["A", "B"] 2 5 3 0 rfl (by decide) (by decide)

/-- C9: when the extracted text has character count zero, the matched text —
a prefix of the request text by the tree contract, so also of count zero —
gives the `f32` match rate `0.0 / 0.0 = NaN`, every `>` comparison against a
threshold in `[0, 1]` is false, and the smallest-tenant branch is taken; in
the fairness branch the deduction is `0`, so the scan selects the first
ranked worker (its credit being a positive i32 value, the i32 wrap and the
saturating subtraction by 0 are identities) and stores `credit - 0`, leaving
every credit in the user's row unchanged. -/
theorem zero_length_text_routing (threshold : ℚ) (matchedWorker smallestTenant : String)
    (w0 : String) (rest : List String) (row : String → Int)
    (hc0 : 0 ≤ threshold) (hc1 : threshold ≤ 1)
    (hw0 : 0 < row w0) (hw1 : row w0 < 2147483648) :
    cacheAwareSelect 0 0 threshold matchedWorker smallestTenant = smallestTenant
    ∧ fairnessScan row 0 (w0 :: rest)
        = some (w0, fun u => if u = w0 then row w0 - 0 else row u)
    ∧ (fun u => if u = w0 then row w0 - 0 else row u) = row := by
  refine ⟨rfl, ?_, ?_⟩
  · have hguard : 0 < i32Wrap (row w0 - 0) := by
      rw [i32Wrap_eq_self (by omega) (by omega)]
      omega
    have hsat : i32SatSub (row w0) 0 = row w0 - 0 := i32SatSub_eq (by omega) (by omega)
    simp only [fairnessScan]
    rw [if_pos hguard]
    simp only [hsat]
  · funext u
    by_cases hu : u = w0
    · subst hu
      simp
    · simp [hu]

/-- Witness for C9 at a concrete input: threshold 1/2, fairness row with all
credits 5 and single ranked worker `"A"`. -/
theorem zero_length_text_routing_witness :
    (0 : ℚ) ≤ 1 / 2 ∧ (1 : ℚ) / 2 ≤ 1
    ∧ cacheAwareSelect 0 0 (1 / 2) "A" "B" = "B"
    ∧ fairnessScan (fun _ => (5 : Int)) 0 ["A"]
        = some ("A", fun u : String => if u = "A" then (5 : Int) - 0 else 5)
    ∧ (fun u : String => if u = "A" then (5 : Int) - 0 else 5) = (fun _ => (5 : Int)) := by
  refine ⟨by norm_num, by norm_num, ?_⟩
  exact zero_length_text_routing (1 / 2) "A" "B" "A" [] (fun _ => 5)
    (by norm_num) (by norm_num) (by decide) (by decide)

/-- C10 counterexample: the claim says lazy initialization stores
`fairness_fill_size (≥ 1)` so no stored credit is ever zero or negative, but
the source stores the wrapping cast `*fairness_fill_size as i32`
(router.rs line 280): at `fairness_fill_size = 2^31` (`≥ 1`) every credit of
a new user's row initializes to `-2^31`, which is negative — the
strict-positivity invariant is broken at initialization. -/
theorem init_credit_wraps_negative_cex :
    (1 : Nat) ≤ 2 ^ 31
    ∧ initRow (2 ^ 31) "A" = -2147483648
    ∧ ¬ (0 < initRow (2 ^ 31) "A") := by
  refine ⟨by norm_num, by decide, by decide⟩

/-- C10 amended: the fairness operations keep all stored credits strictly
positive in the i32 no-overflow regime: lazy initialization stores the
positive value `usizeToI32 fillSize` provided that cast is `≥ 1` (which
`fairness_fill_size ≥ 1` alone does not guarantee); a selection from a row
of positive i32 credits with deduction `0 ≤ d < 2^31` stores exactly
`credit - d` under the guard `0 < credit - d` and leaves the rest of the row
untouched; and a refill adds `fill ≥ 1` to each worker's already-positive
credit provided the sum stays below `2^31` (otherwise the i32 addition wraps
negative). -/
theorem fairness_credits_strictly_positive (workers sorted : List String)
    (row rowR row' : String → Int) (d fill : Int) (fillSize : Nat) (w : String)
    (hcast : 1 ≤ usizeToI32 fillSize)
    (hf : 1 ≤ fill) (hnd : workers.Nodup)
    (hrange : ∀ u ∈ sorted, 0 < row u ∧ row u < 2147483648)
    (hd0 : 0 ≤ d) (hd1 : d < 2147483648)
    (hpos : rowPos workers row)
    (hsel : fairnessScan row d sorted = some (w, row'))
    (hposR : rowPos workers rowR)
    (hnoR : ∀ u ∈ workers, rowR u + fill < 2147483648) :
    rowPos workers (initRow fillSize)
    ∧ rowPos workers row'
    ∧ rowPos workers (refillRow workers fill rowR) := by
  obtain ⟨hfind, hguard, hrow⟩ := fairnessScan_some hrange hd0 hd1 hsel
  refine ⟨?_, ?_, ?_⟩
  · intro u hu
    exact lt_of_lt_of_le zero_lt_one hcast
  · intro u hu
    have heq : row' u = if u = w then row w - d else row u := by rw [hrow]
    rw [heq]
    by_cases huw : u = w
    · rw [if_pos huw]
      exact hguard
    · rw [if_neg huw]
      exact hpos u hu
  · intro u hu
    have hpu := hposR u hu
    have hno := hnoR u hu
    rw [refillRow_mem workers fill rowR u hnd hu,
      i32Wrap_eq_self (by omega) (by omega)]
    linarith

/-- Witness for the amended C10 at a concrete input: worker list `["A"]`,
fill size 2 (cast 2), a row with credit 5 selected against `d = 3`, a second
row with credit 1 refilled by 2. -/
theorem fairness_credits_strictly_positive_witness :
    rowPos ["A"] (initRow 2)
    ∧ rowPos ["A"] (fun u : String => if u = "A" then (2 : Int) else 5)
    ∧ rowPos ["A"] (refillRow ["A"] 2 (fun _ => (1 : Int))) := by
  exact fairness_credits_strictly_positive ["A"] ["A"] (fun _ => 5) (fun _ => 1)
    (fun u => if u = "A" then 2 else 5) 3 2 2 "A" (by decide) (by decide) (by simp)
    (by intro u hu; constructor <;> norm_num) (by decide) (by decide)
    (fun u _ => by norm_num) (by rfl) (fun u _ => by norm_num)
    (fun u _ => by norm_num)

end SGLRouter
